import Mathlib

/- Verification development for the tagged asset reference-counting core of
   HyphenUtil (Source/HyphenUtil/Public/HyphenAssetManager.h and
   Source/HyphenUtil/Private/HyphenAssetManager.cpp).

   Modelling conventions:
   * FName and FSoftObjectPath are opaque, comparable, hashable identifiers;
     both are modelled as Nat.  NAME_None is 0; the null FSoftObjectPath is 0
     (FSoftObjectPath::IsValid() holds exactly for non-null paths, and
     IsNull() is its negation).
   * UObject pointers to resolved assets are modelled as Nat identities.
   * TMap is modelled as an association list in insertion order (operator[]
     reads and writes the first matching key, Remove drops every matching
     key, Emplace of a fresh key appends); every state reachable through the
     manager's API keeps keys unique.
   * TSet::Add / TSet::Emplace and TArray::AddUnique both append an element
     exactly when it is not already present, so they share one model.
   * The caller-supplied FStreamableDelegate is modelled by whether it is
     bound (IsBound) plus a count of Execute() invocations; its body is
     outside the core and does not touch the registry in this model.
   * FSoftObjectPath::ResolveObject() is modelled by an environment function
     env : FSoftObjectPath -> Option UObjId giving the object, if any, the
     path resolves to at completion time. -/

set_option maxHeartbeats 1000000
set_option linter.unusedVariables false

/-- Engine name identifier (FName), modelled as a natural number. -/
abbrev FName := Nat

/-- The distinguished NAME_None value ("no retention requested"). -/
def NAME_None : FName := 0

/-- Soft object path (FSoftObjectPath), modelled as a natural number.
0 models the null path. -/
abbrev FSoftObjectPath := Nat

/-- Identity of a resolved UObject. -/
abbrev UObjId := Nat

/-- FSoftObjectPath::IsValid(): true exactly for non-null paths. -/
def isValidPath (p : FSoftObjectPath) : Bool := p != 0

/-- TMap::Find, and the read side of TMap::operator[]: the value stored at
the first matching key. -/
def tmapFind {α : Type} (m : List (FName × α)) (k : FName) : Option α :=
  match m with
  | [] => none
  | p :: rest => if p.1 = k then some p.2 else tmapFind rest k

/-- TMap::Contains. -/
def tmapContains {α : Type} (m : List (FName × α)) (k : FName) : Bool :=
  (tmapFind m k).isSome

/-- The write side of TMap::operator[]: update, in place, the value stored
at the first matching key. -/
def tmapUpdate {α : Type} (m : List (FName × α)) (k : FName) (f : α → α) :
    List (FName × α) :=
  match m with
  | [] => []
  | p :: rest => if p.1 = k then (p.1, f p.2) :: rest else p :: tmapUpdate rest k f

/-- TMap::Remove: drop every entry stored under the key. -/
def tmapRemove {α : Type} (m : List (FName × α)) (k : FName) : List (FName × α) :=
  match m with
  | [] => []
  | p :: rest => if p.1 = k then tmapRemove rest k else p :: tmapRemove rest k

/-- TSet::Add, TSet::Emplace and TArray::AddUnique: append the element iff
it is not already present (duplicates coalesce, first occurrence kept). -/
def addUnique (l : List Nat) (x : Nat) : List Nat :=
  if x ∈ l then l else l ++ [x]

/-- The private state of UHyphenAssetManager: ReferenceCounter
(TMap FName int32), ReferenceLoadedAssets (TMap FName
FHyphenReferenceAssetObjects, each holding a TSet of UObject pointers) and
LoadedAssets (TSet of UObject pointers). -/
structure RegistryState where
  referenceCounter : List (FName × Int)
  referenceLoadedAssets : List (FName × List UObjId)
  loadedAssets : List UObjId
  deriving DecidableEq, Repr

/-- The manager's state at startup: all containers empty. -/
def initialState : RegistryState := ⟨[], [], []⟩

/-- FHyphenReferenceAssetLoadInfo: the record bound to the completion
trampoline.  OnLoadComplete (an FStreamableDelegate) is modelled by whether
it is bound. -/
structure FHyphenReferenceAssetLoadInfo where
  assetTag : FName
  loadAssetPaths : List FSoftObjectPath
  priority : Int
  onLoadCompleteBound : Bool
  deriving DecidableEq, Repr

/-- UHyphenAssetManager::HoldAssetReference (HyphenAssetManager.cpp lines
72-83): increment the counter entry if present, otherwise emplace the tag
with count 1.  There is no check against NAME_None. -/
def holdAssetReference (tag : FName) (s : RegistryState) : RegistryState :=
  if tmapContains s.referenceCounter tag then
    { s with referenceCounter := tmapUpdate s.referenceCounter tag (fun v => v + 1) }
  else
    { s with referenceCounter := s.referenceCounter ++ [(tag, 1)] }

/-- UHyphenAssetManager::ReleaseAssetReference (lines 85-109): if the tag is
counted, decrement; on reaching zero remove the tag from both
ReferenceLoadedAssets and ReferenceCounter.  If the tag is not counted and
bWarnIfNoReference is set, check(false) fires: the second component reports
whether that assertion fired. -/
def releaseAssetReference (tag : FName) (bWarnIfNoReference : Bool)
    (s : RegistryState) : RegistryState × Bool :=
  if tmapContains s.referenceCounter tag then
    let counter1 := tmapUpdate s.referenceCounter tag (fun v => v - 1)
    let refCount : Int := (tmapFind counter1 tag).getD 0
    if refCount = 0 then
      let loaded1 :=
        if tmapContains s.referenceLoadedAssets tag then
          tmapRemove s.referenceLoadedAssets tag
        else s.referenceLoadedAssets
      let counter2 :=
        if tmapContains counter1 tag then tmapRemove counter1 tag else counter1
      ({ s with referenceCounter := counter2, referenceLoadedAssets := loaded1 }, false)
    else
      ({ s with referenceCounter := counter1 }, false)
  else
    (s, bWarnIfNoReference)

/-- UHyphenAssetManager::FlushAllReferenceLoadedAssets (lines 111-115):
empty both tag-indexed maps; LoadedAssets is untouched. -/
def flushAllReferenceLoadedAssets (s : RegistryState) : RegistryState :=
  { s with referenceLoadedAssets := [], referenceCounter := [] }

/-- UHyphenAssetManager::FlushReferenceLoadedAssets (lines 117-127):
unconditionally drop the tag from both tag-indexed maps. -/
def flushReferenceLoadedAssets (tag : FName) (s : RegistryState) : RegistryState :=
  let loaded1 :=
    if tmapContains s.referenceLoadedAssets tag then
      tmapRemove s.referenceLoadedAssets tag
    else s.referenceLoadedAssets
  let counter1 :=
    if tmapContains s.referenceCounter tag then
      tmapRemove s.referenceCounter tag
    else s.referenceCounter
  { s with referenceLoadedAssets := loaded1, referenceCounter := counter1 }

/-- UHyphenAssetManager::AddLoadedAsset (lines 129-136): a null asset fails
ensureAlways (soft assertion, reported in the second component) and nothing
is inserted; otherwise the asset is added to the LoadedAssets set. -/
def addLoadedAsset (asset : Option UObjId) (s : RegistryState) :
    RegistryState × Bool :=
  match asset with
  | some a => ({ s with loadedAssets := addUnique s.loadedAssets a }, false)
  | none => (s, true)

/-- The attachment block of UHyphenAssetManager::OnReferenceAssetLoaded
(lines 191-203): if the tag has no ReferenceLoadedAssets entry, add a fresh
entry holding just this object, else Emplace the object into the existing
entry's Objects set. -/
def attachLoadedAsset (tag : FName) (obj : UObjId)
    (m : List (FName × List UObjId)) : List (FName × List UObjId) :=
  if tmapContains m tag = false then
    m ++ [(tag, [obj])]
  else
    tmapUpdate m tag (fun objs => addUnique objs obj)

/-- The per-path loop of UHyphenAssetManager::OnReferenceAssetLoaded (lines
184-204): for each path in order, resolve it; execute the record's
OnLoadComplete delegate if bound (counted in the second component); attach
the resolved object under the record's tag iff resolution produced one. -/
def onRefLoop (tag : FName) (bound : Bool) (env : FSoftObjectPath → Option UObjId) :
    List FSoftObjectPath → RegistryState → RegistryState × Nat
  | [], s => (s, 0)
  | p :: rest, s =>
    let loadedAsset := env p
    let fired : Nat := if bound then 1 else 0
    let s1 :=
      match loadedAsset with
      | some obj => { s with referenceLoadedAssets := attachLoadedAsset tag obj s.referenceLoadedAssets }
      | none => s
    let r := onRefLoop tag bound env rest s1
    (r.1, fired + r.2)

/-- UHyphenAssetManager::OnReferenceAssetLoaded (lines 182-205), the
completion trampoline: iterate the record's LoadAssetPaths; the second
component counts the Execute() invocations of the record's OnLoadComplete
delegate. -/
def onReferenceAssetLoaded (info : FHyphenReferenceAssetLoadInfo)
    (env : FSoftObjectPath → Option UObjId) (s : RegistryState) :
    RegistryState × Nat :=
  onRefLoop info.assetTag info.onLoadCompleteBound env info.loadAssetPaths s

/-- Modelled from the spec: the external Loader
(FStreamableManager::RequestAsyncLoad), which is outside this repository.
Per the spec's Loader contract and its error condition "Loader fails to
start -> propagate as null handle" together with "RequestAsync([null])
returns null", a request whose (already filtered) path list is empty is
declined with a null handle; any other request starts and yields a handle. -/
def streamableManagerRequestAsyncLoad (assetPaths : List FSoftObjectPath) :
    Option Unit :=
  if assetPaths.isEmpty then none else some ()

/-- The filtering and deduplication loop of the batch
UHyphenAssetManager::RequestAsyncLoad (lines 37-45): keep the valid targets,
AddUnique into AssetPaths. -/
def dedupValidPaths (targets : List FSoftObjectPath) : List FSoftObjectPath :=
  targets.foldl (fun acc t => if isValidPath t then addUnique acc t else acc) []

/-- Observable outcome of one batch RequestAsyncLoad call: the returned
handle (none models a null TSharedPtr), the Loader invocations made with the
path list forwarded to each, the LoadInfo record bound to the completion
trampoline (if any), and whether the call dereferenced a null handle
(TSharedPtr::operator-> on an invalid pointer). -/
structure DispatchResult where
  handle : Option Unit
  loaderCalls : List (List FSoftObjectPath)
  boundInfo : Option FHyphenReferenceAssetLoadInfo
  nullDeref : Bool
  deriving DecidableEq, Repr

/-- The batch UHyphenAssetManager::RequestAsyncLoad (lines 28-54): return
null for an empty input; otherwise filter and deduplicate, forward to the
streamable manager, and - when ReferenceAssetTag is not NAME_None - bind the
completion trampoline to the returned handle with a LoadInfo carrying the
original TargetsToStream (binding on a null handle dereferences it). -/
def requestAsyncLoadBatch (targetsToStream : List FSoftObjectPath)
    (referenceAssetTag : FName) (delegateBound : Bool) (priority : Int) :
    DispatchResult :=
  if targetsToStream.length = 0 then
    { handle := none, loaderCalls := [], boundInfo := none, nullDeref := false }
  else
    let assetPaths := dedupValidPaths targetsToStream
    let result := streamableManagerRequestAsyncLoad assetPaths
    if referenceAssetTag ≠ NAME_None then
      match result with
      | some h =>
        { handle := some h, loaderCalls := [assetPaths],
          boundInfo := some
            { assetTag := referenceAssetTag, loadAssetPaths := targetsToStream,
              priority := priority, onLoadCompleteBound := delegateBound },
          nullDeref := false }
      | none =>
        { handle := none, loaderCalls := [assetPaths], boundInfo := none,
          nullDeref := true }
    else
      { handle := result, loaderCalls := [assetPaths], boundInfo := none,
        nullDeref := false }

/-- UHyphenAssetManager::GetSubclass (HyphenAssetManager.h lines 148-173):
with a valid class path, take the cached class if set, else the result of
LoadSynchronous; when a class was obtained and bKeepInMemory is set, add it
to LoadedAssets.  The ReferenceAssetTag parameter is accepted but never
read, and no completion trampoline is applied. -/
def getSubclass (classPath : FSoftObjectPath) (cached : Option UObjId)
    (loadSync : Option UObjId) (referenceAssetTag : FName)
    (bKeepInMemory : Bool) (s : RegistryState) :
    Option UObjId × RegistryState :=
  if isValidPath classPath then
    let loadedSubclass :=
      match cached with
      | some c => some c
      | none => loadSync
    match loadedSubclass with
    | some c =>
      if bKeepInMemory then (some c, (addLoadedAsset (some c) s).1)
      else (some c, s)
    | none => (none, s)
  else (none, s)

/-- One registry-mutating operation of the manager's public surface plus the
completion trampoline. -/
inductive RegistryOp where
  | hold (tag : FName)
  | release (tag : FName) (warn : Bool)
  | flushAll
  | flushTag (tag : FName)
  | loadCompleted (info : FHyphenReferenceAssetLoadInfo)
      (env : FSoftObjectPath → Option UObjId)

/-- Apply one operation to the registry state (assertion outcomes and
callback counts are discarded here). -/
def stepOp (s : RegistryState) : RegistryOp → RegistryState
  | .hold t => holdAssetReference t s
  | .release t w => (releaseAssetReference t w s).1
  | .flushAll => flushAllReferenceLoadedAssets s
  | .flushTag t => flushReferenceLoadedAssets t s
  | .loadCompleted info env => (onReferenceAssetLoaded info env s).1

/-- Run a sequence of operations. -/
def runOps (ops : List RegistryOp) (s : RegistryState) : RegistryState :=
  ops.foldl stepOp s

/-- Whether an operation is a Release of this tag or a Flush reaching it
(the only operations that can drop the tag's ReferenceLoadedAssets entry). -/
def touchesTag (t : FName) : RegistryOp → Bool
  | .release t2 _ => t2 == t
  | .flushTag t2 => t2 == t
  | .flushAll => true
  | _ => false

/-- A Hold or a Release call, all on one fixed tag. -/
inductive HR where
  | hold
  | release
  deriving DecidableEq, Repr

/-- Run a sequence of Hold/Release calls on one tag (releases use the
default bWarnIfNoReference = true). -/
def runHR (tag : FName) : List HR → RegistryState → RegistryState
  | [], s => s
  | HR.hold :: rest, s => runHR tag rest (holdAssetReference tag s)
  | HR.release :: rest, s => runHR tag rest (releaseAssetReference tag true s).1

/-- Balancedness of a Hold/Release sequence relative to a starting depth d:
no prefix releases more than was held, and holds and releases cancel out
exactly.  A sequence is balanced when balancedFrom 0 holds. -/
def balancedFrom : Nat → List HR → Bool
  | d, [] => d == 0
  | d, HR.hold :: rest => balancedFrom (d + 1) rest
  | d + 1, HR.release :: rest => balancedFrom d rest
  | 0, HR.release :: _ => false

/-- The registry state reached from s after d more Hold(t) calls than
Release(t) calls on a tag t that s does not track: for d = 0 it is s itself,
otherwise s with one counter entry (t, d) appended. -/
def stateAtDepth (s : RegistryState) (t : FName) : Nat → RegistryState
  | 0 => s
  | d + 1 =>
    { s with referenceCounter := s.referenceCounter ++ [(t, (d : Int) + 1)] }

/-- First-occurrence deduplication, written from the spec's words
"deduplicates by AssetPath equality, preserving first-occurrence order":
keep each element where it first occurs, erase its later occurrences. -/
def dedupFirstSpec : List Nat → List Nat
  | [] => []
  | x :: xs => x :: dedupFirstSpec (xs.filter (fun y => y != x))
termination_by l => l.length
decreasing_by
  simp only [List.length_cons]
  exact Nat.lt_succ_of_le (List.length_filter_le _ _)

/-- Concrete resolution environment in which no path resolves. -/
def envNone : FSoftObjectPath → Option UObjId := fun _ => none

/-- Concrete resolution environment in which every path resolves to object 9. -/
def envNine : FSoftObjectPath → Option UObjId := fun _ => some 9

/-- Concrete LoadInfo used to instantiate the zero-refcount-entry scenario. -/
def infoTag1 : FHyphenReferenceAssetLoadInfo :=
  { assetTag := 1, loadAssetPaths := [5], priority := 0, onLoadCompleteBound := false }

/- Helper lemmas about the TMap / TSet models. -/

theorem tmapContains_eq_false_iff {α : Type} (m : List (FName × α)) (k : FName) :
    tmapContains m k = false ↔ tmapFind m k = none := by
  cases h : tmapFind m k <;> simp [tmapContains, h]

theorem tmapContains_eq_true_iff {α : Type} (m : List (FName × α)) (k : FName) :
    tmapContains m k = true ↔ ∃ v, tmapFind m k = some v := by
  cases h : tmapFind m k <;> simp [tmapContains, h]

theorem tmapFind_append_left {α : Type} {m m2 : List (FName × α)} {k : FName}
    {v : α} (h : tmapFind m k = some v) : tmapFind (m ++ m2) k = some v := by
  induction m with
  | nil => simp [tmapFind] at h
  | cons p rest ih =>
    simp only [tmapFind, List.cons_append] at h ⊢
    split at h <;> simp_all [ih]

theorem tmapFind_append_right {α : Type} {m : List (FName × α)} {k : FName}
    (m2 : List (FName × α)) (h : tmapFind m k = none) :
    tmapFind (m ++ m2) k = tmapFind m2 k := by
  induction m with
  | nil => simp
  | cons p rest ih =>
    simp only [tmapFind, List.cons_append] at h ⊢
    split at h <;> simp_all [ih]

theorem tmapUpdate_append_right {α : Type} {m : List (FName × α)} {k : FName}
    (m2 : List (FName × α)) (f : α → α) (h : tmapFind m k = none) :
    tmapUpdate (m ++ m2) k f = m ++ tmapUpdate m2 k f := by
  induction m with
  | nil => simp
  | cons p rest ih =>
    simp only [tmapFind, List.cons_append, tmapUpdate] at h ⊢
    split at h <;> simp_all [ih]

theorem tmapUpdate_of_find_none {α : Type} {m : List (FName × α)} {k : FName}
    (f : α → α) (h : tmapFind m k = none) : tmapUpdate m k f = m := by
  induction m with
  | nil => rfl
  | cons p rest ih =>
    simp only [tmapFind, tmapUpdate] at h ⊢
    split at h <;> simp_all [ih]

theorem tmapRemove_of_find_none {α : Type} {m : List (FName × α)} {k : FName}
    (h : tmapFind m k = none) : tmapRemove m k = m := by
  induction m with
  | nil => rfl
  | cons p rest ih =>
    simp only [tmapFind, tmapRemove] at h ⊢
    split at h <;> simp_all [ih]

theorem tmapRemove_append {α : Type} (m m2 : List (FName × α)) (k : FName) :
    tmapRemove (m ++ m2) k = tmapRemove m k ++ tmapRemove m2 k := by
  induction m with
  | nil => rfl
  | cons p rest ih =>
    simp only [tmapRemove, List.cons_append]
    split <;> simp [ih]

theorem tmapFind_update_self {α : Type} {m : List (FName × α)} {k : FName}
    {v : α} (f : α → α) (h : tmapFind m k = some v) :
    tmapFind (tmapUpdate m k f) k = some (f v) := by
  induction m with
  | nil => simp [tmapFind] at h
  | cons p rest ih =>
    simp only [tmapFind, tmapUpdate] at h ⊢
    by_cases hp : p.1 = k
    · simp only [if_pos hp] at h ⊢
      simp only [tmapFind, if_pos hp]
      simp_all
    · simp only [if_neg hp] at h ⊢
      simp only [tmapFind, if_neg hp]
      exact ih h

theorem tmapFind_update_ne {α : Type} (m : List (FName × α)) {k k2 : FName}
    (f : α → α) (h : k2 ≠ k) : tmapFind (tmapUpdate m k f) k2 = tmapFind m k2 := by
  induction m with
  | nil => rfl
  | cons p rest ih =>
    simp only [tmapUpdate]
    by_cases hp : p.1 = k
    · have hpk2 : ¬ (p.1 = k2) := by
        rw [hp]
        exact fun hh => h hh.symm
      simp only [if_pos hp, tmapFind, if_neg hpk2]
    · simp only [if_neg hp, tmapFind]
      by_cases hq : p.1 = k2
      · simp [if_pos hq]
      · simp [if_neg hq, ih]

theorem tmapContains_update {α : Type} (m : List (FName × α)) (k k2 : FName)
    (f : α → α) : tmapContains (tmapUpdate m k f) k2 = tmapContains m k2 := by
  induction m with
  | nil => rfl
  | cons p rest ih =>
    simp only [tmapUpdate, tmapContains, tmapFind]
    by_cases hp : p.1 = k
    · simp only [if_pos hp]
      by_cases hq : p.1 = k2 <;> simp_all [tmapContains, tmapFind]
    · simp only [if_neg hp]
      by_cases hq : p.1 = k2 <;> simp_all [tmapContains, tmapFind]

theorem tmapFind_remove_self {α : Type} (m : List (FName × α)) (k : FName) :
    tmapFind (tmapRemove m k) k = none := by
  induction m with
  | nil => rfl
  | cons p rest ih =>
    simp only [tmapRemove]
    split
    · exact ih
    · simp only [tmapFind]
      split <;> simp_all

theorem tmapFind_remove_ne {α : Type} (m : List (FName × α)) {k k2 : FName}
    (h : k2 ≠ k) : tmapFind (tmapRemove m k) k2 = tmapFind m k2 := by
  induction m with
  | nil => rfl
  | cons p rest ih =>
    simp only [tmapRemove]
    by_cases hp : p.1 = k
    · have hpk2 : ¬ (p.1 = k2) := by
        rw [hp]
        exact fun hh => h hh.symm
      simp only [if_pos hp, tmapFind, if_neg hpk2, ih]
    · simp only [if_neg hp, tmapFind]
      by_cases hq : p.1 = k2
      · simp [if_pos hq]
      · simp [if_neg hq, ih]

theorem tmapFind_mem {α : Type} {m : List (FName × α)} {k : FName} {v : α}
    (h : tmapFind m k = some v) : (k, v) ∈ m := by
  induction m with
  | nil => simp [tmapFind] at h
  | cons p rest ih =>
    simp only [tmapFind] at h
    split at h
    · rename_i hp
      cases h
      have hkp : (k, p.2) = p := by
        rw [← hp]
      rw [hkp]
      exact List.mem_cons_self _ _
    · exact List.mem_cons_of_mem _ (ih h)

theorem mem_tmapUpdate {α : Type} {m : List (FName × α)} {k : FName}
    {f : α → α} {p : FName × α} (h : p ∈ tmapUpdate m k f) :
    p ∈ m ∨ ∃ q ∈ m, q.1 = k ∧ p = (q.1, f q.2) := by
  induction m with
  | nil => simp [tmapUpdate] at h
  | cons q rest ih =>
    simp only [tmapUpdate] at h
    split at h
    · rename_i hq
      rcases List.mem_cons.mp h with h1 | h1
      · right
        exact ⟨q, List.mem_cons_self _ _, hq, h1⟩
      · left
        exact List.mem_cons_of_mem _ h1
    · rcases List.mem_cons.mp h with h1 | h1
      · left
        simp [h1]
      · rcases ih h1 with h2 | ⟨q2, hq2, hk, hp⟩
        · left
          exact List.mem_cons_of_mem _ h2
        · right
          exact ⟨q2, List.mem_cons_of_mem _ hq2, hk, hp⟩

theorem tmapRemove_sublist {α : Type} (m : List (FName × α)) (k : FName) :
    (tmapRemove m k).Sublist m := by
  induction m with
  | nil => simp [tmapRemove]
  | cons p rest ih =>
    simp only [tmapRemove]
    split
    · exact ih.cons _
    · exact ih.cons₂ _

theorem keys_tmapUpdate {α : Type} (m : List (FName × α)) (k : FName)
    (f : α → α) : (tmapUpdate m k f).map Prod.fst = m.map Prod.fst := by
  induction m with
  | nil => rfl
  | cons p rest ih =>
    simp only [tmapUpdate]
    split <;> simp [ih]

theorem mem_addUnique {l : List Nat} {x y : Nat} :
    y ∈ addUnique l x ↔ y ∈ l ∨ y = x := by
  unfold addUnique
  split <;> rename_i h
  · constructor
    · exact Or.inl
    · rintro (h1 | rfl)
      · exact h1
      · exact h
  · simp

theorem addUnique_ne_nil (l : List Nat) (x : Nat) : addUnique l x ≠ [] := by
  unfold addUnique
  split <;> rename_i h
  · rintro rfl
    simp at h
  · simp

theorem addUnique_idem (l : List Nat) (x : Nat) :
    addUnique (addUnique l x) x = addUnique l x := by
  unfold addUnique
  split <;> rename_i h
  · simp [addUnique, h]
  · simp [addUnique]

theorem tmapContains_remove_ne {α : Type} (m : List (FName × α)) {k k2 : FName}
    (h : k2 ≠ k) : tmapContains (tmapRemove m k) k2 = tmapContains m k2 := by
  simp [tmapContains, tmapFind_remove_ne m h]

theorem tmapContains_append {α : Type} (m m2 : List (FName × α)) (k : FName) :
    tmapContains (m ++ m2) k = (tmapContains m k || tmapContains m2 k) := by
  cases h : tmapFind m k with
  | none => simp [tmapContains, tmapFind_append_right m2 h, h]
  | some v => simp [tmapContains, tmapFind_append_left h, h]

theorem contains_attachLoadedAsset_self (tag : FName) (obj : UObjId)
    (m : List (FName × List UObjId)) :
    tmapContains (attachLoadedAsset tag obj m) tag = true := by
  unfold attachLoadedAsset
  split <;> rename_i h
  · rw [tmapContains_append]
    simp [tmapContains, tmapFind]
  · rw [tmapContains_update]
    simp at h
    simp [h]

theorem contains_attachLoadedAsset_mono (tag : FName) (obj : UObjId)
    (m : List (FName × List UObjId)) (t : FName)
    (h : tmapContains m t = true) :
    tmapContains (attachLoadedAsset tag obj m) t = true := by
  unfold attachLoadedAsset
  split
  · rw [tmapContains_append, h]
    rfl
  · rw [tmapContains_update]
    exact h

theorem onRefLoop_counter (tag : FName) (bound : Bool)
    (env : FSoftObjectPath → Option UObjId) :
    ∀ (paths : List FSoftObjectPath) (s : RegistryState),
      ((onRefLoop tag bound env paths s).1).referenceCounter = s.referenceCounter := by
  intro paths
  induction paths with
  | nil => intro s; rfl
  | cons p rest ih =>
    intro s
    simp only [onRefLoop]
    cases env p <;> simp [ih]

theorem onRefLoop_loadedAssets (tag : FName) (bound : Bool)
    (env : FSoftObjectPath → Option UObjId) :
    ∀ (paths : List FSoftObjectPath) (s : RegistryState),
      ((onRefLoop tag bound env paths s).1).loadedAssets = s.loadedAssets := by
  intro paths
  induction paths with
  | nil => intro s; rfl
  | cons p rest ih =>
    intro s
    simp only [onRefLoop]
    cases env p <;> simp [ih]

theorem onRefLoop_count (tag : FName) (bound : Bool)
    (env : FSoftObjectPath → Option UObjId) :
    ∀ (paths : List FSoftObjectPath) (s : RegistryState),
      (onRefLoop tag bound env paths s).2 =
        if bound then paths.length else 0 := by
  intro paths
  induction paths with
  | nil => intro s; cases bound <;> rfl
  | cons p rest ih =>
    intro s
    simp only [onRefLoop]
    cases bound <;> cases env p <;> simp [ih] <;> omega

theorem onRefLoop_state_eq_fold (tag : FName) (bound : Bool)
    (env : FSoftObjectPath → Option UObjId) :
    ∀ (paths : List FSoftObjectPath) (s : RegistryState),
      (onRefLoop tag bound env paths s).1 =
        (paths.filterMap env).foldl
          (fun st obj =>
            { st with referenceLoadedAssets :=
                attachLoadedAsset tag obj st.referenceLoadedAssets }) s := by
  intro paths
  induction paths with
  | nil => intro s; rfl
  | cons p rest ih =>
    intro s
    simp only [onRefLoop, List.filterMap_cons]
    cases env p <;> simp [ih]

theorem onRefLoop_loaded_mono (tag : FName) (bound : Bool)
    (env : FSoftObjectPath → Option UObjId) :
    ∀ (paths : List FSoftObjectPath) (s : RegistryState) (t : FName),
      tmapContains s.referenceLoadedAssets t = true →
      tmapContains ((onRefLoop tag bound env paths s).1).referenceLoadedAssets t = true := by
  intro paths
  induction paths with
  | nil => intro s t h; exact h
  | cons p rest ih =>
    intro s t h
    simp only [onRefLoop]
    cases env p with
    | none => exact ih s t h
    | some obj => exact ih _ t (contains_attachLoadedAsset_mono tag obj _ t h)

theorem onRefLoop_creates (tag : FName) (bound : Bool)
    (env : FSoftObjectPath → Option UObjId) :
    ∀ (paths : List FSoftObjectPath) (s : RegistryState),
      paths.filterMap env ≠ [] →
      tmapContains ((onRefLoop tag bound env paths s).1).referenceLoadedAssets tag = true := by
  intro paths
  induction paths with
  | nil => intro s h; simp at h
  | cons p rest ih =>
    intro s h
    simp only [onRefLoop]
    cases hp : env p with
    | none =>
      refine ih s ?_
      simpa [List.filterMap_cons, hp] using h
    | some obj =>
      exact onRefLoop_loaded_mono tag bound env rest _ tag
        (contains_attachLoadedAsset_self tag obj _)

theorem hold_loaded_eq (tag : FName) (s : RegistryState) :
    (holdAssetReference tag s).referenceLoadedAssets = s.referenceLoadedAssets := by
  unfold holdAssetReference
  split <;> rfl

theorem release_loaded_contains_ne {t t2 : FName} (w : Bool) (s : RegistryState)
    (h : t ≠ t2) :
    tmapContains ((releaseAssetReference t2 w s).1).referenceLoadedAssets t =
      tmapContains s.referenceLoadedAssets t := by
  simp only [releaseAssetReference]
  repeat' split
  all_goals first
    | exact tmapContains_remove_ne _ h
    | rfl

theorem flushTag_loaded_contains_ne {t t2 : FName} (s : RegistryState)
    (h : t ≠ t2) :
    tmapContains (flushReferenceLoadedAssets t2 s).referenceLoadedAssets t =
      tmapContains s.referenceLoadedAssets t := by
  unfold flushReferenceLoadedAssets
  simp only
  split
  · exact tmapContains_remove_ne _ h
  · rfl

/-- C1 counterexample: with one path that resolves to nothing and a bound
onComplete delegate, the trampoline still executes the delegate once for
that path, whereas the claim ("exactly once per path that resolves to a
loaded object; no callback invocation for a path that resolves to nothing")
demands zero invocations here: the number of resolving paths is 0. -/
theorem c1_counterexample_unresolved_path_fires_callback :
    (onReferenceAssetLoaded ⟨1, [5], 0, true⟩ envNone initialState).2 = 1 ∧
    (([5] : List FSoftObjectPath).filterMap envNone).length = 0 := by
  constructor <;> rfl

/-- C1 (amended): for every completion of a tagged async load, the
trampoline OnReferenceAssetLoaded iterates the LoadInfo record's paths in
original order and, when the record's onComplete delegate is bound, invokes
it exactly once per listed path - whether or not the path resolves; a path
that resolves to nothing is skipped only for attachment, so the registry
effect is exactly the in-order attachment of the resolved objects under the
record's tag. -/
theorem c1_callback_once_per_listed_path (info : FHyphenReferenceAssetLoadInfo)
    (env : FSoftObjectPath → Option UObjId) (s : RegistryState) :
    (onReferenceAssetLoaded info env s).2 =
      (if info.onLoadCompleteBound then info.loadAssetPaths.length else 0) ∧
    (onReferenceAssetLoaded info env s).1 =
      (info.loadAssetPaths.filterMap env).foldl
        (fun st obj =>
          { st with referenceLoadedAssets :=
              attachLoadedAsset info.assetTag obj st.referenceLoadedAssets }) s := by
  exact ⟨onRefLoop_count _ _ _ _ _, onRefLoop_state_eq_fold _ _ _ _ _⟩

/-- C2: a completion-trampoline invocation for a tag with no reference
counter entry that resolves at least one object creates a
ReferenceLoadedAssets entry for the tag while leaving the tag out of
ReferenceCounter (a zero-reference entry); such an entry survives every
operation other than a Release of that tag or a Flush reaching it (so it
persists until a subsequent Release or Flush); and ReleaseAssetReference on
a tag without a counter entry with bWarnIfNoReference = true fires the
check(false) programming-error assertion. -/
theorem c2_zero_refcount_entry (t : FName) (info : FHyphenReferenceAssetLoadInfo)
    (env : FSoftObjectPath → Option UObjId) (s : RegistryState)
    (htag : info.assetTag = t)
    (hcnt : tmapContains s.referenceCounter t = false)
    (hres : info.loadAssetPaths.filterMap env ≠ []) :
    (tmapContains ((onReferenceAssetLoaded info env s).1).referenceLoadedAssets t = true ∧
     tmapContains ((onReferenceAssetLoaded info env s).1).referenceCounter t = false) ∧
    (∀ (op : RegistryOp) (s2 : RegistryState), touchesTag t op = false →
       tmapContains s2.referenceLoadedAssets t = true →
       tmapContains (stepOp s2 op).referenceLoadedAssets t = true) ∧
    (∀ s3 : RegistryState, tmapContains s3.referenceCounter t = false →
       (releaseAssetReference t true s3).2 = true) := by
  refine ⟨⟨?_, ?_⟩, ?_, ?_⟩
  · rw [← htag]
    exact onRefLoop_creates _ _ _ _ _ hres
  · rw [onReferenceAssetLoaded, onRefLoop_counter]
    exact hcnt
  · intro op s2 hop hmem
    cases op with
    | hold t2 =>
      rw [stepOp, hold_loaded_eq]
      exact hmem
    | release t2 w =>
      simp only [touchesTag, beq_eq_false_iff_ne] at hop
      rw [stepOp, release_loaded_contains_ne w s2 (fun hh => hop hh.symm)]
      exact hmem
    | flushAll => simp [touchesTag] at hop
    | flushTag t2 =>
      simp only [touchesTag, beq_eq_false_iff_ne] at hop
      rw [stepOp, flushTag_loaded_contains_ne s2 (fun hh => hop hh.symm)]
      exact hmem
    | loadCompleted info2 env2 =>
      exact onRefLoop_loaded_mono _ _ _ _ _ _ hmem
  · intro s3 h3
    simp [releaseAssetReference, h3]

/-- Witness for C2 at a concrete input: tag 1, a single path 5 resolving to
object 9, starting from the empty registry. -/
theorem c2_zero_refcount_entry_witness :
    tmapContains ((onReferenceAssetLoaded infoTag1 envNine initialState).1).referenceLoadedAssets 1 = true ∧
    (releaseAssetReference 1 true initialState).2 = true :=
  ⟨((c2_zero_refcount_entry 1 infoTag1 envNine initialState rfl (by decide)
      (by decide)).1).1,
   ((c2_zero_refcount_entry 1 infoTag1 envNine initialState rfl (by decide)
      (by decide)).2).2 initialState (by decide)⟩

/-- C7 counterexample: HoldAssetReference performs no NAME_None check, so a
single Hold(NONE) from the initial state puts NONE into the reference
counter's domain, contradicting the claimed rejection. -/
theorem c7_counterexample_hold_none_accepted :
    tmapContains (holdAssetReference NAME_None initialState).referenceCounter
      NAME_None = true := by
  decide

/-- C7 (amended): Hold with the distinguished NONE tag is not rejected:
HoldAssetReference treats NAME_None like any other tag, incrementing an
existing counter entry or creating one with count 1, so NONE can enter the
domain of the reference counter. -/
theorem c7_hold_none_counts_like_any_tag (s : RegistryState) :
    tmapFind (holdAssetReference NAME_None s).referenceCounter NAME_None =
      some ((tmapFind s.referenceCounter NAME_None).getD 0 + 1) := by
  unfold holdAssetReference
  cases h : tmapFind s.referenceCounter NAME_None with
  | none =>
    simp only [tmapContains, h, Option.isSome_none, Bool.false_eq_true, if_false]
    rw [tmapFind_append_right _ h]
    simp [tmapFind]
  | some v =>
    simp only [tmapContains, h, Option.isSome_some, if_true]
    rw [tmapFind_update_self _ h]
    simp

/-- C8: AddLoadedAsset is idempotent - inserting the same non-null object
twice into LoadedAssets yields the same set as inserting it once - and a
null object fails the ensureAlways soft assertion and leaves the state
unchanged. -/
theorem c8_addLoadedAsset_idempotent (s : RegistryState) (o : UObjId) :
    (addLoadedAsset (some o) (addLoadedAsset (some o) s).1).1 =
      (addLoadedAsset (some o) s).1 ∧
    addLoadedAsset none s = (s, true) := by
  refine ⟨?_, rfl⟩
  simp [addLoadedAsset, addUnique_idem]

/-- C10: GetSubclass leaves the retention registry unchanged - the reference
counter and the retained-objects map of the resulting state equal those of
the input state, and no completion trampoline runs on the class-loading
path - and the ReferenceAssetTag parameter is never consulted: any two tags
give identical results, even when the class is loaded synchronously. -/
theorem c10_getSubclass_registry_frame (classPath : FSoftObjectPath)
    (cached loadSync : Option UObjId) (tag tag2 : FName) (keep : Bool)
    (s : RegistryState) :
    ((getSubclass classPath cached loadSync tag keep s).2.referenceCounter =
       s.referenceCounter ∧
     (getSubclass classPath cached loadSync tag keep s).2.referenceLoadedAssets =
       s.referenceLoadedAssets) ∧
    getSubclass classPath cached loadSync tag keep s =
      getSubclass classPath cached loadSync tag2 keep s := by
  refine ⟨⟨?_, ?_⟩, rfl⟩ <;>
    · unfold getSubclass
      cases cached <;> cases loadSync <;> cases keep <;>
        repeat' split <;> rfl

theorem mem_tmapRemove {α : Type} {m : List (FName × α)} {k : FName}
    {p : FName × α} (h : p ∈ tmapRemove m k) : p ∈ m ∧ p.1 ≠ k := by
  induction m with
  | nil => simp [tmapRemove] at h
  | cons q rest ih =>
    simp only [tmapRemove] at h
    split at h
    · rename_i hq
      rcases ih h with ⟨h1, h2⟩
      exact ⟨List.mem_cons_of_mem _ h1, h2⟩
    · rename_i hq
      rcases List.mem_cons.mp h with h1 | h1
      · subst h1
        exact ⟨List.mem_cons_self _ _, hq⟩
      · rcases ih h1 with ⟨h2, h3⟩
        exact ⟨List.mem_cons_of_mem _ h2, h3⟩

theorem tmapContains_iff_mem_keys {α : Type} (m : List (FName × α)) (k : FName) :
    tmapContains m k = true ↔ k ∈ m.map Prod.fst := by
  induction m with
  | nil => simp [tmapContains, tmapFind]
  | cons p rest ih =>
    simp only [tmapContains, tmapFind, List.map_cons, List.mem_cons]
    split <;> rename_i hp
    · simp [hp]
    · rw [← tmapContains]
      rw [ih]
      constructor
      · exact Or.inr
      · rintro (h1 | h1)
        · exact absurd h1.symm hp
        · exact h1

theorem tmapFind_of_mem_nodup {α : Type} {m : List (FName × α)}
    (hnd : (m.map Prod.fst).Nodup) {p : FName × α} (hp : p ∈ m) :
    tmapFind m p.1 = some p.2 := by
  induction m with
  | nil => simp at hp
  | cons q rest ih =>
    simp only [List.map_cons, List.nodup_cons] at hnd
    rcases List.mem_cons.mp hp with h1 | h1
    · subst h1
      simp [tmapFind]
    · have hne : ¬ (q.1 = p.1) := by
        intro hh
        exact hnd.1 (hh ▸ List.mem_map_of_mem Prod.fst h1)
      simp only [tmapFind, if_neg hne]
      exact ih hnd.2 h1

/-- Well-formedness of the reference counter map: unique keys (as TMap
guarantees) and every stored count strictly positive. -/
def counterOK (s : RegistryState) : Prop :=
  (s.referenceCounter.map Prod.fst).Nodup ∧ ∀ p ∈ s.referenceCounter, 0 < p.2

theorem counterOK_hold (t : FName) (s : RegistryState) (h : counterOK s) :
    counterOK (holdAssetReference t s) := by
  unfold holdAssetReference
  split <;> rename_i hc
  · constructor
    · rw [counterOK] at h
      simpa [keys_tmapUpdate] using h.1
    · intro p hp
      rcases mem_tmapUpdate hp with h1 | ⟨q, hq, hk, rfl⟩
      · exact h.2 p h1
      · have := h.2 q hq
        simp only
        omega
  · constructor
    · rw [List.map_append, List.nodup_append]
      refine ⟨h.1, by simp, ?_⟩
      intro a ha hb
      simp only [List.map_cons, List.map_nil, List.mem_singleton] at hb
      subst hb
      have : tmapContains s.referenceCounter a = true :=
        (tmapContains_iff_mem_keys _ _).mpr ha
      simp [this] at hc
    · intro p hp
      rcases List.mem_append.mp hp with h1 | h1
      · exact h.2 p h1
      · simp only [List.mem_singleton] at h1
        subst h1
        norm_num

theorem counterOK_release (t : FName) (w : Bool) (s : RegistryState)
    (h : counterOK s) : counterOK ((releaseAssetReference t w s).1) := by
  simp only [releaseAssetReference]
  split <;> rename_i hc
  · rcases (tmapContains_eq_true_iff _ _).mp hc with ⟨v, hv⟩
    split <;> rename_i hz
    · split <;> rename_i hc2
      · constructor
        · have hnd : ((tmapUpdate s.referenceCounter t (fun x => x - 1)).map
              Prod.fst).Nodup := by
            rw [keys_tmapUpdate]
            exact h.1
          exact hnd.sublist ((tmapRemove_sublist _ t).map Prod.fst)
        · intro p hp
          rcases mem_tmapRemove hp with ⟨h1, h2⟩
          rcases mem_tmapUpdate h1 with h3 | ⟨q, hq, hk, rfl⟩
          · exact h.2 p h3
          · exact absurd hk h2
      · constructor
        · simpa [keys_tmapUpdate] using h.1
        · intro p hp
          rcases mem_tmapUpdate hp with h1 | ⟨q, hq, hk, rfl⟩
          · exact h.2 p h1
          · exfalso
            apply hc2
            simp [tmapContains_update, hc]
    · constructor
      · simpa [keys_tmapUpdate] using h.1
      · intro p hp
        rcases mem_tmapUpdate hp with h1 | ⟨q, hq, hk, rfl⟩
        · exact h.2 p h1
        · have hqv : q.2 = v := by
            have := tmapFind_of_mem_nodup h.1 hq
            rw [hk, hv] at this
            exact (Option.some_inj.mp this).symm
          have hpos := h.2 q hq
          have hne : (tmapFind (tmapUpdate s.referenceCounter t
              (fun x => x - 1)) t).getD 0 ≠ 0 := hz
          rw [tmapFind_update_self _ hv] at hne
          simp only [Option.getD_some] at hne
          simp only
          omega
  · exact h

theorem counterOK_flushAll (s : RegistryState) (h : counterOK s) :
    counterOK (flushAllReferenceLoadedAssets s) := by
  constructor <;> simp [flushAllReferenceLoadedAssets]

theorem counterOK_flushTag (t : FName) (s : RegistryState) (h : counterOK s) :
    counterOK (flushReferenceLoadedAssets t s) := by
  simp only [flushReferenceLoadedAssets]
  split <;> rename_i hc
  · constructor
    · exact h.1.sublist ((tmapRemove_sublist _ t).map Prod.fst)
    · intro p hp
      exact h.2 p (mem_tmapRemove hp).1
  · exact h

theorem counterOK_step (op : RegistryOp) (s : RegistryState) (h : counterOK s) :
    counterOK (stepOp s op) := by
  cases op with
  | hold t => exact counterOK_hold t s h
  | release t w => exact counterOK_release t w s h
  | flushAll => exact counterOK_flushAll s h
  | flushTag t => exact counterOK_flushTag t s h
  | loadCompleted info env =>
    rcases h with ⟨h1, h2⟩
    constructor
    · rw [stepOp, onReferenceAssetLoaded, onRefLoop_counter]
      exact h1
    · rw [stepOp, onReferenceAssetLoaded, onRefLoop_counter]
      exact h2

theorem counterOK_runOps (ops : List RegistryOp) :
    counterOK (runOps ops initialState) := by
  suffices hgen : ∀ (ops2 : List RegistryOp) (s : RegistryState),
      counterOK s → counterOK (runOps ops2 s) by
    refine hgen ops initialState ?_
    constructor <;> simp [initialState]
  intro ops2
  induction ops2 with
  | nil =>
    intro s hs
    exact hs
  | cons op rest ih =>
    intro s hs
    exact ih _ (counterOK_step op s hs)

/-- C4: after any sequence of Hold, Release, FlushTag, FlushAll and
load-completion trampoline operations starting from the initial state,
every entry present in the reference counter map has a strictly positive
count (an entry exists for a tag only with count at least 1); moreover, in
any state, a Release of a tag whose count is 1 removes the counter entry in
the same step. -/
theorem c4_counter_entries_positive :
    (∀ (ops : List RegistryOp) (t : FName) (c : Int),
       tmapFind (runOps ops initialState).referenceCounter t = some c → 1 ≤ c) ∧
    (∀ (s : RegistryState) (t : FName) (w : Bool),
       tmapFind s.referenceCounter t = some 1 →
       tmapContains ((releaseAssetReference t w s).1).referenceCounter t = false) := by
  constructor
  · intro ops t c hfind
    have hok := counterOK_runOps ops
    have hmem := tmapFind_mem hfind
    have := hok.2 _ hmem
    simp only at this
    omega
  · intro s t w h
    have hc : tmapContains s.referenceCounter t = true := by
      simp [tmapContains, h]
    have h1 : tmapFind (tmapUpdate s.referenceCounter t (fun v => v - 1)) t =
        some ((1 : Int) - 1) := tmapFind_update_self _ h
    have hcu : tmapContains (tmapUpdate s.referenceCounter t (fun v => v - 1)) t = true := by
      rw [tmapContains_update]
      exact hc
    simp only [releaseAssetReference, hc, if_true, h1, Option.getD_some]
    norm_num
    rw [if_pos hcu]
    simp [tmapContains, tmapFind_remove_self]

/-- Witness for C4 at a concrete input: one Hold of tag 1 yields count 1;
releasing tag 1 from that state removes the entry. -/
theorem c4_counter_entries_positive_witness :
    (1 : Int) ≤ 1 ∧
    tmapContains ((releaseAssetReference 1 true
      (runOps [RegistryOp.hold 1] initialState)).1).referenceCounter 1 = false :=
  ⟨c4_counter_entries_positive.1 [RegistryOp.hold 1] 1 1 (by decide),
   c4_counter_entries_positive.2 (runOps [RegistryOp.hold 1] initialState) 1 true
     (by decide)⟩

theorem hold_depth_step (t : FName) (s : RegistryState)
    (hfind : tmapFind s.referenceCounter t = none) (d : Nat) :
    holdAssetReference t (stateAtDepth s t d) = stateAtDepth s t (d + 1) := by
  cases d with
  | zero =>
    have hc : tmapContains s.referenceCounter t = false := by
      simp [tmapContains, hfind]
    simp only [stateAtDepth, holdAssetReference, hc, Bool.false_eq_true, if_false]
    norm_num
  | succ d2 =>
    have hfm : tmapFind (s.referenceCounter ++ [(t, (d2 : Int) + 1)]) t =
        some ((d2 : Int) + 1) := by
      rw [tmapFind_append_right _ hfind]
      simp [tmapFind]
    have hcm : tmapContains (s.referenceCounter ++ [(t, (d2 : Int) + 1)]) t = true := by
      simp [tmapContains, hfm]
    have hupd2 : tmapUpdate (s.referenceCounter ++ [(t, (d2 : Int) + 1)]) t
        (fun v => v + 1) = s.referenceCounter ++ [(t, ((d2 + 1 : Nat) : Int) + 1)] := by
      rw [tmapUpdate_append_right _ _ hfind]
      have harith : ((d2 : Int) + 1) + 1 = ((d2 + 1 : Nat) : Int) + 1 := by
        push_cast
        ring
      simp [tmapUpdate, harith]
    simp only [stateAtDepth, holdAssetReference, hcm, if_true, hupd2]

theorem release_depth_step (t : FName) (s : RegistryState)
    (hfind : tmapFind s.referenceCounter t = none)
    (hl : tmapContains s.referenceLoadedAssets t = false) (d : Nat) :
    (releaseAssetReference t true (stateAtDepth s t (d + 1))).1 =
      stateAtDepth s t d := by
  have hfm : tmapFind (s.referenceCounter ++ [(t, (d : Int) + 1)]) t =
      some ((d : Int) + 1) := by
    rw [tmapFind_append_right _ hfind]
    simp [tmapFind]
  have hcm : tmapContains (s.referenceCounter ++ [(t, (d : Int) + 1)]) t = true := by
    simp [tmapContains, hfm]
  have hupd : tmapUpdate (s.referenceCounter ++ [(t, (d : Int) + 1)]) t
      (fun v => v - 1) = s.referenceCounter ++ [(t, (d : Int))] := by
    rw [tmapUpdate_append_right _ _ hfind]
    simp [tmapUpdate]
  have hfu : tmapFind (tmapUpdate (s.referenceCounter ++ [(t, (d : Int) + 1)]) t
      (fun v => v - 1)) t = some ((d : Int)) := by
    rw [hupd, tmapFind_append_right _ hfind]
    simp [tmapFind]
  have hcu : tmapContains (tmapUpdate (s.referenceCounter ++ [(t, (d : Int) + 1)]) t
      (fun v => v - 1)) t = true := by
    simp [tmapContains, hfu]
  have hrem : tmapRemove (tmapUpdate (s.referenceCounter ++ [(t, (d : Int) + 1)]) t
      (fun v => v - 1)) t = s.referenceCounter := by
    rw [hupd, tmapRemove_append, tmapRemove_of_find_none hfind]
    simp [tmapRemove]
  simp only [stateAtDepth, releaseAssetReference, hcm, hfu, Option.getD_some, hl,
    hcu, Bool.false_eq_true, eq_self_iff_true, if_true, if_false, hrem]
  cases d with
  | zero =>
    rw [if_pos (by norm_num : ((0 : Nat) : Int) = 0)]
  | succ e =>
    have hne : ¬ (((e + 1 : Nat) : Int) = 0) := by
      push_cast
      omega
    have harith : ((e + 1 : Nat) : Int) = ((e : Nat) : Int) + 1 := by
      push_cast
      ring
    rw [if_neg hne, hupd]
    simp only [stateAtDepth, harith]

theorem runHR_balancedFrom (t : FName) (s : RegistryState)
    (hc : tmapContains s.referenceCounter t = false)
    (hl : tmapContains s.referenceLoadedAssets t = false) :
    ∀ (seq : List HR) (d : Nat), balancedFrom d seq = true →
      runHR t seq (stateAtDepth s t d) = s := by
  have hfind : tmapFind s.referenceCounter t = none :=
    (tmapContains_eq_false_iff _ _).mp hc
  intro seq
  induction seq with
  | nil =>
    intro d hbal
    have hd : d = 0 := by
      simpa [balancedFrom] using hbal
    subst hd
    rfl
  | cons op rest ih =>
    intro d hbal
    cases op with
    | hold =>
      rw [runHR, hold_depth_step t s hfind d]
      exact ih (d + 1) (by simpa [balancedFrom] using hbal)
    | release =>
      cases d with
      | zero => simp [balancedFrom] at hbal
      | succ d2 =>
        rw [runHR, release_depth_step t s hfind hl d2]
        exact ih d2 (by simpa [balancedFrom] using hbal)

/-- C3 counterexample: the claim quantifies over every starting state (it
speaks of "the pre-Hold state"), but when the tag is already tracked - here
tag 1 with count 1 - a balanced Hold;Release sequence brings the count back
to 1 and the tag is still present in the reference counter afterwards,
contradicting "the tag is absent from both maps". -/
theorem c3_counterexample_tracked_tag_stays :
    balancedFrom 0 [HR.hold, HR.release] = true ∧
    tmapContains (runHR 1 [HR.hold, HR.release]
      ⟨[(1, 1)], [], []⟩).referenceCounter 1 = true := by
  constructor <;> decide

/-- C3 (amended): for every tag t that is initially untracked (absent from
both the reference counter and the retained-objects map) and every balanced
sequence of Hold(t)/Release(t) calls with no load completions for t in
between, after the final Release the tag is absent from both maps and the
registry equals its pre-Hold state exactly. -/
theorem c3_balanced_hold_release_restores (t : FName) (s : RegistryState)
    (seq : List HR)
    (hbal : balancedFrom 0 seq = true)
    (hc : tmapContains s.referenceCounter t = false)
    (hl : tmapContains s.referenceLoadedAssets t = false) :
    runHR t seq s = s ∧
    tmapContains (runHR t seq s).referenceCounter t = false ∧
    tmapContains (runHR t seq s).referenceLoadedAssets t = false := by
  have h := runHR_balancedFrom t s hc hl seq 0 hbal
  rw [stateAtDepth] at h
  refine ⟨h, ?_, ?_⟩ <;> rw [h]
  · exact hc
  · exact hl

/-- Witness for C3 at a concrete input: tag 1, the balanced sequence
Hold;Hold;Release;Release, starting from the empty registry. -/
theorem c3_balanced_hold_release_restores_witness :
    runHR 1 [HR.hold, HR.hold, HR.release, HR.release] initialState =
      initialState :=
  (c3_balanced_hold_release_restores 1 initialState
    [HR.hold, HR.hold, HR.release, HR.release]
    (by decide) (by decide) (by decide)).1

theorem filter_filter_own (p q : Nat → Bool) (l : List Nat) :
    (l.filter p).filter q = l.filter (fun a => p a && q a) := by
  induction l with
  | nil => rfl
  | cons x rest ih =>
    by_cases hp : p x = true <;> by_cases hq : q x = true <;>
      simp [List.filter_cons, hp, hq, ih]

theorem dedup_foldl_eq_nil (ts : List FSoftObjectPath) :
    ∀ acc : List FSoftObjectPath,
      (ts.foldl (fun a x => if isValidPath x then addUnique a x else a) acc = []
        ↔ acc = [] ∧ ∀ p ∈ ts, isValidPath p = false) := by
  induction ts with
  | nil =>
    intro acc
    simp
  | cons x rest ih =>
    intro acc
    simp only [List.foldl_cons]
    by_cases hv : isValidPath x = true
    · rw [if_pos hv]
      constructor
      · intro h
        exact absurd ((ih _).mp h).1 (addUnique_ne_nil acc x)
      · rintro ⟨h1, h2⟩
        exact absurd (h2 x (List.mem_cons_self _ _)) (by simp [hv])
    · rw [if_neg hv]
      rw [ih acc]
      constructor
      · rintro ⟨h1, h2⟩
        refine ⟨h1, ?_⟩
        intro p hp
        rcases List.mem_cons.mp hp with rfl | hp2
        · simpa using hv
        · exact h2 p hp2
      · rintro ⟨h1, h2⟩
        exact ⟨h1, fun p hp => h2 p (List.mem_cons_of_mem _ hp)⟩

theorem dedupValidPaths_eq_nil_iff (ts : List FSoftObjectPath) :
    dedupValidPaths ts = [] ↔ ∀ p ∈ ts, isValidPath p = false := by
  rw [dedupValidPaths, dedup_foldl_eq_nil]
  simp

theorem dedupValid_eq_filter_fold (ts : List FSoftObjectPath) :
    ∀ acc : List FSoftObjectPath,
      ts.foldl (fun a x => if isValidPath x then addUnique a x else a) acc =
        (ts.filter isValidPath).foldl addUnique acc := by
  induction ts with
  | nil =>
    intro acc
    rfl
  | cons x rest ih =>
    intro acc
    by_cases hv : isValidPath x = true <;>
      simp [List.filter_cons, hv, ih]

theorem foldl_addUnique_dedupFirst (l : List Nat) :
    ∀ acc : List Nat,
      l.foldl addUnique acc =
        acc ++ dedupFirstSpec (l.filter (fun y => decide (y ∉ acc))) := by
  induction l with
  | nil =>
    intro acc
    simp [dedupFirstSpec]
  | cons x rest ih =>
    intro acc
    simp only [List.foldl_cons]
    by_cases hx : x ∈ acc
    · have ha : addUnique acc x = acc := by
        simp [addUnique, hx]
      have hfx : (decide (x ∉ acc) : Bool) = false := by
        simp [hx]
      rw [ha, ih acc]
      simp only [List.filter_cons, hfx, Bool.false_eq_true, if_false]
    · have ha : addUnique acc x = acc ++ [x] := by
        simp [addUnique, hx]
      have hfx : (decide (x ∉ acc) : Bool) = true := by
        simp [hx]
      rw [ha, ih (acc ++ [x])]
      simp only [List.filter_cons, hfx, if_true]
      rw [dedupFirstSpec, List.append_assoc, List.singleton_append]
      congr 2
      rw [filter_filter_own]
      congr 1
      refine List.filter_congr ?_
      intro y hy
      by_cases h1 : y = x <;> by_cases h2 : y ∈ acc <;>
        simp [h1, h2, List.mem_append]

theorem dedupValidPaths_spec (ts : List FSoftObjectPath) :
    dedupValidPaths ts = dedupFirstSpec (ts.filter isValidPath) := by
  rw [dedupValidPaths, dedupValid_eq_filter_fold ts [], foldl_addUnique_dedupFirst]
  simp

theorem requestAsyncLoadBatch_nil (tag : FName) (db : Bool) (pr : Int) :
    requestAsyncLoadBatch [] tag db pr =
      ⟨none, [], none, false⟩ := rfl

theorem requestAsyncLoadBatch_none_tag (targets : List FSoftObjectPath)
    (db : Bool) (pr : Int) (h : targets ≠ []) :
    requestAsyncLoadBatch targets NAME_None db pr =
      ⟨streamableManagerRequestAsyncLoad (dedupValidPaths targets),
       [dedupValidPaths targets], none, false⟩ := by
  simp only [requestAsyncLoadBatch]
  rw [if_neg (by simpa using h)]
  rw [if_neg (by simp : ¬ (NAME_None ≠ NAME_None))]

theorem requestAsyncLoadBatch_tag_some (targets : List FSoftObjectPath)
    (tag : FName) (db : Bool) (pr : Int) (htag : tag ≠ NAME_None)
    (hne : dedupValidPaths targets ≠ []) :
    requestAsyncLoadBatch targets tag db pr =
      ⟨some (), [dedupValidPaths targets],
       some ⟨tag, targets, pr, db⟩, false⟩ := by
  have hlen : ¬ (targets.length = 0) := by
    intro hh
    apply hne
    rw [List.length_eq_zero.mp hh]
    rfl
  have hres : streamableManagerRequestAsyncLoad (dedupValidPaths targets) =
      some () := by
    rw [streamableManagerRequestAsyncLoad, if_neg]
    simpa [List.isEmpty_iff] using hne
  simp only [requestAsyncLoadBatch]
  rw [if_neg hlen, if_pos htag, hres]

theorem requestAsyncLoadBatch_tag_null_deref (targets : List FSoftObjectPath)
    (tag : FName) (db : Bool) (pr : Int) (htag : tag ≠ NAME_None)
    (h : targets ≠ []) (hnil : dedupValidPaths targets = []) :
    requestAsyncLoadBatch targets tag db pr =
      ⟨none, [[]], none, true⟩ := by
  have hres : streamableManagerRequestAsyncLoad (dedupValidPaths targets) =
      none := by
    rw [streamableManagerRequestAsyncLoad, if_pos]
    simp [hnil]
  simp only [requestAsyncLoadBatch]
  rw [if_neg (by simpa using h), if_pos htag, hres, hnil]

theorem requestAsyncLoadBatch_loaderCalls (targets : List FSoftObjectPath)
    (tag : FName) (db : Bool) (pr : Int) (h : targets ≠ []) :
    (requestAsyncLoadBatch targets tag db pr).loaderCalls =
      [dedupValidPaths targets] := by
  simp only [requestAsyncLoadBatch]
  rw [if_neg (by simpa using h)]
  split
  · cases streamableManagerRequestAsyncLoad (dedupValidPaths targets) <;> rfl
  · rfl

/-- C5 counterexample: for the non-empty, all-null input [null] the batch
RequestAsyncLoad returns null, yet the claim's "invokes no Loader call" is
violated: the streamable manager is still invoked once (with the empty
filtered list). -/
theorem c5_counterexample_null_only_calls_loader :
    (requestAsyncLoadBatch [0] NAME_None false 0).handle = none ∧
    (requestAsyncLoadBatch [0] NAME_None false 0).loaderCalls ≠ [] := by
  constructor <;> decide

/-- C5 (amended): for tag = NONE, batch RequestAsyncLoad returns null iff
the input list is empty or contains only null entries; in that case no
trampoline LoadInfo is bound, no null handle is dereferenced, and (as the
dispatcher never touches the registry or executes delegates) there is no
registry mutation and no callback; however the Loader call is skipped only
for an empty input - a non-empty all-null list is still forwarded to the
Loader as the empty filtered list, which the Loader declines.  With
tag ≠ NONE, a non-empty all-null list leads to dereferencing the null
Loader handle. -/
theorem c5_null_return_iff_empty_or_all_null (targets : List FSoftObjectPath)
    (db : Bool) (pr : Int) :
    ((requestAsyncLoadBatch targets NAME_None db pr).handle = none ↔
       targets = [] ∨ ∀ p ∈ targets, isValidPath p = false) ∧
    ((requestAsyncLoadBatch targets NAME_None db pr).handle = none →
       (requestAsyncLoadBatch targets NAME_None db pr).boundInfo = none ∧
       (requestAsyncLoadBatch targets NAME_None db pr).nullDeref = false) ∧
    (targets = [] →
       (requestAsyncLoadBatch targets NAME_None db pr).loaderCalls = []) ∧
    (targets ≠ [] → (∀ p ∈ targets, isValidPath p = false) →
       (requestAsyncLoadBatch targets NAME_None db pr).loaderCalls = [[]]) ∧
    (∀ tag : FName, tag ≠ NAME_None → targets ≠ [] →
       (∀ p ∈ targets, isValidPath p = false) →
       (requestAsyncLoadBatch targets tag db pr).nullDeref = true) := by
  by_cases hnil : targets = []
  · subst hnil
    refine ⟨?_, ?_, ?_, ?_, ?_⟩
    · simp [requestAsyncLoadBatch_nil]
    · intro _
      exact ⟨rfl, rfl⟩
    · intro _
      rfl
    · intro h _
      exact absurd rfl h
    · intro tag _ h _
      exact absurd rfl h
  · have hshape := requestAsyncLoadBatch_none_tag targets db pr hnil
    refine ⟨?_, ?_, ?_, ?_, ?_⟩
    · rw [hshape]
      simp only [streamableManagerRequestAsyncLoad]
      constructor
      · intro h
        right
        rw [← dedupValidPaths_eq_nil_iff]
        by_cases he : (dedupValidPaths targets).isEmpty = true
        · exact List.isEmpty_iff.mp he
        · rw [if_neg he] at h
          exact absurd h (by simp)
      · rintro (h | h)
        · exact absurd h hnil
        · have : dedupValidPaths targets = [] :=
            (dedupValidPaths_eq_nil_iff targets).mpr h
          rw [if_pos (by simp [this])]
    · intro _
      rw [hshape]
      exact ⟨rfl, rfl⟩
    · intro h
      exact absurd h hnil
    · intro _ h
      have hd : dedupValidPaths targets = [] :=
        (dedupValidPaths_eq_nil_iff targets).mpr h
      rw [hshape, hd]
    · intro tag htag _ h
      have hd : dedupValidPaths targets = [] :=
        (dedupValidPaths_eq_nil_iff targets).mpr h
      rw [requestAsyncLoadBatch_tag_null_deref targets tag db pr htag hnil hd]

/-- Witness for C5 at concrete inputs: the all-null list [null] with
tag = NONE returns null with no bound trampoline and one Loader call with
the empty list; with tag 1 it dereferences the null handle. -/
theorem c5_null_return_witness :
    (requestAsyncLoadBatch [0] NAME_None false 0).handle = none ∧
    (requestAsyncLoadBatch [0] NAME_None false 0).boundInfo = none ∧
    (requestAsyncLoadBatch [0] NAME_None false 0).loaderCalls = [[]] ∧
    (requestAsyncLoadBatch [0] 1 false 0).nullDeref = true := by
  have T := c5_null_return_iff_empty_or_all_null [0] false 0
  have hhandle := T.1.mpr (Or.inr (by decide))
  exact ⟨hhandle, (T.2.1 hhandle).1,
    T.2.2.2.1 (by decide) (by decide),
    T.2.2.2.2 1 (by decide) (by decide) (by decide)⟩

/-- C6: for every non-empty input, the batch RequestAsyncLoad forwards to
the Loader exactly the first-occurrence deduplication (by AssetPath
equality, order preserved) of the valid entries of the input; in particular
for valid p ≠ q the input [p, p, q] reaches the Loader as [p, q]. -/
theorem c6_dedup_first_occurrence (targets : List FSoftObjectPath)
    (tag : FName) (db : Bool) (pr : Int) (h : targets ≠ []) :
    (requestAsyncLoadBatch targets tag db pr).loaderCalls =
      [dedupFirstSpec (targets.filter isValidPath)] ∧
    ∀ (p q : FSoftObjectPath), isValidPath p = true → isValidPath q = true →
      p ≠ q →
      (requestAsyncLoadBatch [p, p, q] tag db pr).loaderCalls = [[p, q]] := by
  constructor
  · rw [requestAsyncLoadBatch_loaderCalls targets tag db pr h,
      dedupValidPaths_spec]
  · intro p q hp hq hne
    rw [requestAsyncLoadBatch_loaderCalls [p, p, q] tag db pr (by simp)]
    have : dedupValidPaths [p, p, q] = [p, q] := by
      simp [dedupValidPaths, addUnique, hp, hq, Ne.symm hne]
    rw [this]

/-- Witness for C6 at a concrete input: [1, 1, 2] reaches the Loader as
[1, 2]. -/
theorem c6_dedup_first_occurrence_witness :
    (requestAsyncLoadBatch [1, 1, 2] NAME_None false 0).loaderCalls =
      [dedupFirstSpec ([1, 1, 2].filter isValidPath)] ∧
    (requestAsyncLoadBatch [1, 1, 2] NAME_None false 0).loaderCalls =
      [[1, 2]] :=
  ⟨(c6_dedup_first_occurrence [1, 1, 2] NAME_None false 0 (by decide)).1,
   (c6_dedup_first_occurrence [1, 1, 2] NAME_None false 0 (by decide)).2
     1 2 (by decide) (by decide) (by decide)⟩

/-- C9: for a batch RequestAsyncLoad with tag ≠ NONE (whose filtered list is
non-empty, so the Loader accepts it), the LoadInfo record bound to the
completion trampoline carries the original TargetsToStream - duplicates and
null entries included - while the Loader receives the deduplicated,
filtered list. -/
theorem c9_loadinfo_carries_original_paths (targets : List FSoftObjectPath)
    (tag : FName) (db : Bool) (pr : Int) (htag : tag ≠ NAME_None)
    (hne : dedupValidPaths targets ≠ []) :
    (requestAsyncLoadBatch targets tag db pr).boundInfo =
      some ⟨tag, targets, pr, db⟩ ∧
    (requestAsyncLoadBatch targets tag db pr).loaderCalls =
      [dedupValidPaths targets] := by
  rw [requestAsyncLoadBatch_tag_some targets tag db pr htag hne]
  exact ⟨rfl, rfl⟩

/-- Witness for C9 at a concrete input: [7, 7, 0] with tag 3 binds a
LoadInfo carrying [7, 7, 0] while the Loader receives [7]. -/
theorem c9_loadinfo_carries_original_paths_witness :
    (requestAsyncLoadBatch [7, 7, 0] 3 true 0).boundInfo =
      some ⟨3, [7, 7, 0], 0, true⟩ ∧
    (requestAsyncLoadBatch [7, 7, 0] 3 true 0).loaderCalls = [[7]] := by
  have T := c9_loadinfo_carries_original_paths [7, 7, 0] 3 true 0
    (by decide) (by decide)
  refine ⟨T.1, ?_⟩
  rw [T.2]
  rfl
